import Mathlib

/-!
# Verification of the Solomon Moodle resource-acquisition engine

A shallow embedding, in Lean 4, of the core of `download-pdfs.js`: filename
hygiene (Block 3), the retry wrapper (Block 4), magic-byte detection and
extension mapping (Block 5), candidate ranking (Block 6), the
Preflight-Select loop and post-download classification of the main runner
(Block 10), and the two-phase HTML-package mirroring (Block 8).

JavaScript buffers are modelled as `List Nat` (byte values), a possibly
absent (`null`/`undefined`) buffer as `Option (List Nat)`, and thrown
exceptions as `Option`/`Except` failure values.  Network and browser
collaborators (fetching, URL resolution, regex reference extraction) are
parameters of the functions that use them, so that every control-flow
decision of the source is represented while the I/O boundary stays
abstract.
-/

namespace Solomon

/-! ## Byte/character string primitives

The JS string operations used by the source (`includes`, `startsWith`,
`endsWith`, `slice`) modelled over `List Char`.  ASCII-only URLs and
content types are the intended domain, matching the source's usage. -/

/-- `leadsWith pat s` is true when `pat` occurs at the very start of `s`
(the inner loop of JS `String.prototype.startsWith`). -/
def leadsWith : List Char → List Char → Bool
  | [], _ => true
  | _ :: _, [] => false
  | p :: ps, c :: cs => p = c && leadsWith ps cs

/-- `hasSub pat s` is true when `pat` occurs contiguously anywhere in `s`
(JS `String.prototype.includes`). -/
def hasSub (pat : List Char) : List Char → Bool
  | [] => leadsWith pat []
  | c :: cs => leadsWith pat (c :: cs) || hasSub pat cs

/-- JS `s.includes(pat)`. -/
def strIncludes (s pat : String) : Bool := hasSub pat.toList s.toList

/-- JS `s.startsWith(pat)`. -/
def strStartsWith (s pat : String) : Bool := leadsWith pat.toList s.toList

/-- JS `s.endsWith(pat)`. -/
def strEndsWith (s pat : String) : Bool := leadsWith pat.toList.reverse s.toList.reverse

/-- JS `s.slice(n)` (drop the first `n` characters). -/
def strDropChars (s : String) (n : Nat) : String := String.mk (s.toList.drop n)

/-- ASCII lowercasing of one character, the effect of JS `toLowerCase` on
the ASCII range handled by the source. -/
def lowerChar (c : Char) : Char :=
  if 'A' ≤ c && c ≤ 'Z' then Char.ofNat (c.toNat + 32) else c

/-- JS `s.toLowerCase()` on the ASCII fragment. -/
def strLower (s : String) : String := String.mk (s.toList.map lowerChar)

/-! ## Block 5: magic-byte detection and extension mapping -/

/-- `looksLikePDF(buf)`: `buf && buf.length >= 5 &&
buf.slice(0, 5).toString('ascii') === '%PDF-'`.  Node's `'ascii'` decoding
masks each byte to 7 bits, hence the `% 128`. -/
def looksLikePDF (buf : Option (List Nat)) : Bool :=
  match buf with
  | none => false
  | some b => decide (5 ≤ b.length) && ((b.take 5).map (· % 128) == [0x25, 0x50, 0x44, 0x46, 0x2d])

/-- `looksLikeZIP(buf)`: false for an absent buffer or one shorter than 4
bytes; otherwise bytes 0,1 must be `0x50 0x4B` and byte 2 one of
`0x03/0x05/0x07`. -/
def looksLikeZIP (buf : Option (List Nat)) : Bool :=
  match buf with
  | none => false
  | some b =>
    if b.length < 4 then false
    else (b.getD 0 0 == 0x50) && (b.getD 1 0 == 0x4b) &&
      ((b.getD 2 0 == 0x03) || (b.getD 2 0 == 0x05) || (b.getD 2 0 == 0x07))

/-- JS whitespace as relevant to the ASCII fragment the source manipulates
(`\s` and `String.prototype.trim` both match these). -/
def isJsWhitespace (c : Char) : Bool :=
  c = ' ' || c = '\t' || c = '\n' || c = '\x0d' || c = '\x0b' || c = '\x0c'

/-- Strip whitespace from both ends (JS `String.prototype.trim`). -/
def trimChars (l : List Char) : List Char :=
  ((l.dropWhile isJsWhitespace).reverse.dropWhile isJsWhitespace).reverse

/-- One byte of Node's `buf.toString('utf8')`, restricted to the ASCII
range; a non-ASCII byte is abstracted to the replacement character, which
never equals any ASCII character the heuristic compares against. -/
def asciiCharOfByte (n : Nat) : Char :=
  if n < 128 then Char.ofNat n else Char.ofNat 0xfffd

/-- `looksLikeHTML` applied to a present buffer: decode up to 512 bytes,
trim, lowercase, then test for doctype/html at the start or head/body
anywhere. -/
def looksLikeHTMLBytes (b : List Nat) : Bool :=
  let s := ((trimChars ((b.take 512).map asciiCharOfByte)).map lowerChar)
  leadsWith "<!doctype html".toList s || leadsWith "<html".toList s ||
    hasSub "<head".toList s || hasSub "<body".toList s

/-- `looksLikeHTML(buf)` as written dereferences `buf` unconditionally
(`buf.toString(...)`), so an absent buffer is a thrown `TypeError`,
modelled as `none`; a present buffer yields `some` of the heuristic. -/
def looksLikeHTMLq (buf : Option (List Nat)) : Option Bool :=
  match buf with
  | none => none
  | some b => some (looksLikeHTMLBytes b)

/-- `extFromContentType(ct)`: `(ct || '').toLowerCase()` then the fixed
first-match-wins substring table. -/
def extFromContentType (ct : Option String) : String :=
  let c := strLower (ct.getD "")
  if strIncludes c "pdf" then ".pdf"
  else if strIncludes c "zip" then ".zip"
  else if strIncludes c "msword" then ".doc"
  else if strIncludes c "officedocument.wordprocessingml" then ".docx"
  else if strIncludes c "officedocument.spreadsheetml" then ".xlsx"
  else if strIncludes c "officedocument.presentationml" then ".pptx"
  else if strIncludes c "text/html" then ".html"
  else if strIncludes c "text/plain" then ".txt"
  else if strIncludes c "text/css" then ".css"
  else if strIncludes c "javascript" then ".js"
  else if strIncludes c "image/png" then ".png"
  else if strIncludes c "image/jpeg" then ".jpg"
  else if strIncludes c "image/webp" then ".webp"
  else if strIncludes c "image/svg" then ".svg"
  else if strIncludes c "audio/mpeg" || strIncludes c "audio/mp3" then ".mp3"
  else if strIncludes c "video/mp4" then ".mp4"
  else if strIncludes c "font/woff2" then ".woff2"
  else if strIncludes c "font/woff" then ".woff"
  else if strIncludes c "font/ttf" then ".ttf"
  else ""

/-! ## Block 3: filename hygiene -/

/-- The character class `[a-z0-9.\-_ ]` with the `i` flag, i.e. the
characters `sanitizeFilename` leaves untouched. -/
def isAllowedChar (c : Char) : Bool :=
  ('a' ≤ c && c ≤ 'z') || ('A' ≤ c && c ≤ 'Z') || ('0' ≤ c && c ≤ '9') ||
    c = '.' || c = '-' || c = '_' || c = ' '

/-- `replace(/X+/g, rep)`: collapse every maximal run of characters
matching `p` into a single `rep`.  `inRun` records whether the previous
character belonged to a run. -/
def collapseAux (p : Char → Bool) (rep : Char) : Bool → List Char → List Char
  | _, [] => []
  | inRun, c :: cs =>
    if p c then
      if inRun then collapseAux p rep true cs else rep :: collapseAux p rep true cs
    else c :: collapseAux p rep false cs

/-- Collapse runs, starting outside a run. -/
def collapseRuns (p : Char → Bool) (rep : Char) (l : List Char) : List Char :=
  collapseAux p rep false l

/-- `sanitizeFilename(name)`: replace `%` by `_`, replace every character
outside the allowed class by `_`, collapse whitespace runs to one space,
collapse `_` runs to one `_`, trim, then truncate to 240 characters. -/
def sanitizeFilename (name : String) : String :=
  let s1 := name.toList.map (fun c => if c = '%' then '_' else c)
  let s2 := s1.map (fun c => if isAllowedChar c then c else '_')
  let s3 := collapseRuns isJsWhitespace ' ' s2
  let s4 := collapseRuns (fun c => c = '_') '_' s3
  let s5 := trimChars s4
  String.mk (s5.take 240)

/-! ## Block 4: retry wrapper

`withRetries(fn, retries)` loops `i = 1 .. retries`; each failed attempt
records the error and sleeps `300 * i` milliseconds before the next try;
after the loop the last error is re-thrown.  The `fn` of one call is
modelled as the map from attempt number to that attempt's outcome, and
the function returns both the final outcome and the list of backoff
delays in order.  A zero budget re-throws the initial `undefined`
`lastErr`, hence the `Option` in the error type. -/

/-- The retry loop from attempt `i` with `k` attempts remaining. -/
def retryGo (attempts : Nat → Except ε α) : Nat → Nat → Option ε → Except (Option ε) α × List Nat
  | _, 0, last => (Except.error last, [])
  | i, k + 1, _ =>
    match attempts i with
    | Except.ok a => (Except.ok a, [])
    | Except.error e =>
      let r := retryGo attempts (i + 1) k (some e)
      (r.1, 300 * i :: r.2)

/-- `withRetries`: run the loop from attempt 1 with the full budget. -/
def withRetries (attempts : Nat → Except ε α) (retries : Nat) : Except (Option ε) α × List Nat :=
  retryGo attempts 1 retries none

/-! ## Block 6: candidate ranking -/

/-- `scoreCandidate(urlStr)`: lowercase the URL, test the five URL shape
markers, and score by the fixed policy. -/
def scoreCandidate (urlStr : String) : Nat :=
  let u := strLower urlStr
  let isZip := strIncludes u ".zip"
  let isPdf := strIncludes u ".pdf"
  let isIndexHtml := strEndsWith u "/index.html" || strIncludes u "/index.html?"
  let isPluginfile := strIncludes u "/pluginfile.php/"
  let isForced := strIncludes u "forcedownload"
  if isZip then 1000 + (if isPluginfile then 10 else 0)
  else if isPdf then 900 + (if isPluginfile then 10 else 0) + (if isForced then 5 else 0)
  else if isIndexHtml then 850 + (if isPluginfile then 10 else 0)
  else if isPluginfile then 700 + (if isForced then 10 else 0)
  else 200

/-- A scored candidate (`{ href, score }`). -/
structure Scored where
  href : String
  score : Nat
  deriving Repr, DecidableEq

/-- `Array.from(new Set(xs))`: drop every element already seen, keeping
the first occurrence order.  `seen` accumulates elements kept so far. -/
def dedupKeepFirst : List String → List String → List String
  | [], _ => []
  | x :: xs, seen =>
    if x ∈ seen then dedupKeepFirst xs seen else x :: dedupKeepFirst xs (x :: seen)

/-- The comparator `(a, b) => b.score - a.score` as the total preorder "may
come first": `a` may precede `b` when `b.score ≤ a.score`. -/
def scoreGE (a b : Scored) : Prop := b.score ≤ a.score

instance : DecidableRel scoreGE := fun a b => Nat.decLe b.score a.score

instance : IsTotal Scored scoreGE := ⟨fun a b => Nat.le_total b.score a.score⟩

instance : IsTrans Scored scoreGE := ⟨fun _ _ _ h h' => Nat.le_trans h' h⟩

/-- The strict version of the comparator order, used to show a ranking
with pairwise-distinct scores is unique. -/
def scoreGT (a b : Scored) : Prop := b.score < a.score

instance : IsAntisymm Scored scoreGT :=
  ⟨fun _ _ h h' => absurd h (Nat.lt_asymm h')⟩

instance : IsTrans Scored scoreGT :=
  ⟨fun _ _ _ h h' => Nat.lt_trans h' h⟩

/-- The scored list before sorting: filter out falsy (empty) strings,
dedupe, apply the PDF-only filter unless `DOWNLOAD_ALL`, and score. -/
def scoredOf (downloadAll : Bool) (candidates : List String) : List Scored :=
  let deduped := dedupKeepFirst (candidates.filter (fun c => !(c == ""))) []
  let filtered := if downloadAll then deduped
    else deduped.filter (fun h => strIncludes (strLower h) ".pdf")
  filtered.map (fun h => { href := h, score := scoreCandidate h })

/-- `rankCandidates(candidates)`: the scored list sorted by descending
score.  V8's `Array.prototype.sort` is a stable sort, modelled as the
stable `List.insertionSort` over the same comparator. -/
def rankCandidates (downloadAll : Bool) (candidates : List String) : List Scored :=
  (scoredOf downloadAll candidates).insertionSort scoreGE

/-! ## Block 10, Preflight-Select

The per-candidate loop of the main runner: probe each ranked candidate in
order (the probe parameter stands for the `withRetries`-wrapped
`preflight`), skip it when the probe is not ok or the declared length
exceeds the cap, and otherwise accept — outright in `DOWNLOAD_ALL` mode
(the ZIP tests are computed but both branches accept), and only on a
PDF content type in PDF-only mode. -/

/-- The probe result fields the selection loop reads: `ok`, the declared
content type, the declared content length (`none` when the header is
absent, empty, or non-numeric — `Number(pf.cl)` is then `NaN`), and the
sniffed byte head (`null` after a successful HEAD probe). -/
structure Preflight where
  ok : Bool
  ct : String
  cl : Option Nat
  sniff : Option (List Nat)

/-- `MAX_BYTES_DEFAULT = 200 * 1024 * 1024`. -/
def MAX_BYTES_DEFAULT : Nat := 200 * 1024 * 1024

/-- `!Number.isNaN(clNum) && clNum > MAX_BYTES` where `MAX_BYTES` is
`Infinity` when `ALLOW_LARGE=1`. -/
def sizeExceeds (allowLarge : Bool) (cl : Option Nat) : Bool :=
  match cl with
  | none => false
  | some n => !allowLarge && decide (MAX_BYTES_DEFAULT < n)

/-- The `for (const { href } of ranked)` selection loop, returning the
`chosen` URL (or `none` when every candidate is rejected). -/
def selectCandidate (downloadAll allowLarge : Bool) (probe : String → Preflight) :
    List Scored → Option String
  | [] => none
  | c :: rest =>
    let pf := probe c.href
    if !pf.ok then selectCandidate downloadAll allowLarge probe rest
    else if sizeExceeds allowLarge pf.cl then selectCandidate downloadAll allowLarge probe rest
    else if !downloadAll then
      if !strIncludes (strLower pf.ct) "pdf" then selectCandidate downloadAll allowLarge probe rest
      else some c.href
    else
      let looksZipByUrl := strIncludes (strLower c.href) ".zip"
      let zipBySig := match pf.sniff with
        | some bytes => looksLikeZIP (some bytes)
        | none => false
      let zipByCT := strIncludes (strLower pf.ct) "zip"
      if looksZipByUrl && (zipByCT || zipBySig) then some c.href else some c.href

/-! ## Block 10, post-download classification

The tail of the per-resource loop once `downloadFull` has returned: the
failed-download check, the PDF-only strictness check, the HTML-package
dispatch, and the regular-file write with its metadata sidecar.  URL
parsing (`new URL(chosen)` for the package-index test and the raw
basename) and `uniquePath`'s filesystem probing are oracle parameters;
every branch decision and write of the source is represented. -/

/-- The fields of the `downloadFull` result the classification reads. -/
structure Download where
  ok : Bool
  ct : String
  cl : String
  data : List Nat

/-- The terminal outcome of one resource, each of which bumps exactly one
summary counter. -/
inductive Outcome
  | saved
  | savedPackage
  | skipped
  | failed
  deriving Repr, DecidableEq

/-- The run-summary counters touched by the per-resource loop. -/
structure Summary where
  savedFiles : Nat
  savedPackages : Nat
  skipped : Nat
  failed : Nat
  deriving Repr, DecidableEq

/-- The counter bump performed at each outcome site of the main loop. -/
def bumpOutcome (s : Summary) : Outcome → Summary
  | Outcome.saved => { s with savedFiles := s.savedFiles + 1 }
  | Outcome.savedPackage => { s with savedPackages := s.savedPackages + 1 }
  | Outcome.skipped => { s with skipped := s.skipped + 1 }
  | Outcome.failed => { s with failed := s.failed + 1 }

/-- The regex `/\.[a-z0-9]{1,8}$/i`: the name ends in a dot followed by
one to eight ASCII alphanumerics. -/
def hasShortExt (name : String) : Bool :=
  let rev := name.toList.reverse
  let tail := rev.takeWhile (fun c =>
    ('a' ≤ c && c ≤ 'z') || ('A' ≤ c && c ≤ 'Z') || ('0' ≤ c && c ≤ '9'))
  decide (1 ≤ tail.length) && decide (tail.length ≤ 8) && (rev.getD tail.length ' ' == '.')

/-- The direct-file branch: choose an extension, sanitize, and prepend the
resource id, exactly as lines 642–647 of the source. -/
def directFileName (downloadAll : Bool) (rid rawName ct : String) : String :=
  let hasExt := hasShortExt rawName
  let ext0 := if hasExt then "" else extFromContentType (some ct)
  let ext := if !hasExt && ext0 == "" then (if downloadAll then ".bin" else ".pdf") else ext0
  let finalName := if hasExt then sanitizeFilename rawName else sanitizeFilename (rawName ++ ext)
  sanitizeFilename (rid ++ "-" ++ finalName)

/-- Classification and writes after `downloadFull`.  `isPkgIndex` stands
for `isHtmlPackageIndex` (a URL-parse plus path regex), `rawNameOf` for
`decodeURIComponent(path.basename(new URL(chosen).pathname))` with `none`
for a thrown parse error, and `uniquify` for `uniquePath`'s
collision-avoiding rename.  Returns the outcome together with the list of
file paths written by this step (package-mirroring writes are accounted
inside `mirrorHtmlPackage`, not here). -/
def afterDownload (downloadAll : Bool) (isPkgIndex : String → Bool)
    (rawNameOf : String → Option String) (uniquify : String → String)
    (outputDir rid chosen : String) (full : Download) : Outcome × List String :=
  if !full.ok then (Outcome.failed, [])
  else
    let buf := full.data
    let ctLower := strLower full.ct
    if !downloadAll && (!(strIncludes ctLower "pdf") || !looksLikePDF (some buf)) then
      (Outcome.skipped, [])
    else if downloadAll && isPkgIndex chosen && looksLikeHTMLBytes buf then
      (Outcome.savedPackage, [])
    else
      let rawName := (rawNameOf chosen).getD "download"
      let prefixed := directFileName downloadAll rid rawName full.ct
      let outPath := uniquify (outputDir ++ "/" ++ prefixed)
      (Outcome.saved, [outPath, outPath ++ ".meta.json"])

/-! ## Block 8: HTML package mirroring

`mirrorHtmlPackage` runs a static reference crawl (Phase A) and then a
runtime network harvest (Phase B).  URL resolution (`new URL(ref,
entryUrl)`), the network fetch, and the regex reference extractor
(`extractRefsFromText` over the decoded body) are collaborator parameters
gathered in `CrawlEnv`; the containment test, the visited/saved sets, the
depth bookkeeping and the write decisions are the source's own logic and
are embedded directly. -/

/-- `normalizeRelPath(ref)`: trim, reject empty and `data:`/`blob:`/
`javascript:` references. -/
def normalizeRelPath (ref : String) : Option String :=
  let r := String.mk (trimChars ref.toList)
  if r == "" || strStartsWith r "data:" || strStartsWith r "blob:" ||
      strStartsWith r "javascript:" then none
  else some r

/-- `shouldIgnoreRef(ref)`: fragment-only, `mailto:` and `tel:` links. -/
def shouldIgnoreRef (ref : String) : Bool :=
  let r := strLower ref
  strStartsWith r "#" || strStartsWith r "mailto:" || strStartsWith r "tel:"

/-- `localPathForRef(pkgDir, ref)`: strip fragment and query, turn
backslashes into slashes, strip leading slashes; `none` when nothing is
left, otherwise the path under the package root (`path.join` modelled as
separator concatenation). -/
def localPathForRef (pkgDir ref : String) : Option String :=
  let clean := ((ref.toList.takeWhile (fun c => c ≠ '#')).takeWhile (fun c => c ≠ '?')).map
    (fun c => if c = '\\' then '/' else c)
  let safe := clean.dropWhile (fun c => c = '/')
  if safe.isEmpty then none else some (pkgDir ++ "/" ++ String.mk safe)

/-- The fields of a `fetchBinary` result the crawl reads (`data = none`
models a null body). -/
structure FetchRes where
  ok : Bool
  ct : String
  data : Option (List Nat)

/-- The collaborators and configuration of one package mirror:
`resolve ref` is `new URL(ref, entryUrl).toString()` (`none` for a thrown
parse error), `fetch` the `withRetries`-wrapped `fetchBinary`, `refsOf`
the `extractRefsFromText` regex scan of a fetched body, `baseDir` the
entry's base directory, `pkgRoot` the package output directory, and the
two caps are `MIRROR_MAX_DEPTH` / `MIRROR_MAX_FILES`. -/
structure CrawlEnv where
  resolve : String → Option String
  fetch : String → FetchRes
  refsOf : List Nat → List String
  baseDir : String
  pkgRoot : String
  maxDepth : Nat
  maxFiles : Nat

/-- The mutable state of Phase A, plus two event logs: `fetched` records
every `(absoluteUrl, depth)` passed to the network fetch, `writes` every
`(absoluteUrl, localPath)` written to disk. -/
structure MirrorState where
  visited : List String
  saved : List String
  queue : List (String × Nat)
  fetched : List (String × Nat)
  writes : List (String × String)
  deriving Repr, DecidableEq

/-- `Set.add`: insert unless already present. -/
def insertNew (x : String) (l : List String) : List String :=
  if x ∈ l then l else x :: l

/-- The filter applied to extracted references before enqueuing them (used
both for the depth-1 seeds and for children at `depth + 1`). -/
def enqueueItems (refs : List String) (d : Nat) : List (String × Nat) :=
  refs.filterMap (fun r =>
    match normalizeRelPath r with
    | none => none
    | some n => if shouldIgnoreRef n then none else some (n, d))

/-- One iteration of the Phase A `while` loop: `done` when the loop guard
(`queue.length && savedFiles.size < MIRROR_MAX_FILES`) fails, otherwise
the state after processing one queue entry. -/
inductive StepRes
  | done (st : MirrorState)
  | next (st : MirrorState)

/-- The body of the Phase A loop, one dequeue at a time, mirroring the
source's `continue` chain: depth guard, URL resolution, containment
check, visited check, local-path computation, fetch, write, and the
conditional re-scan of textual bodies. -/
def phaseAStep (env : CrawlEnv) (st : MirrorState) : StepRes :=
  match st.queue with
  | [] => StepRes.done st
  | (ref, depth) :: rest =>
    if env.maxFiles ≤ st.saved.length then StepRes.done st
    else
      let st1 := { st with queue := rest }
      if env.maxDepth < depth then StepRes.next st1
      else
        match env.resolve ref with
        | none => StepRes.next st1
        | some absolute =>
          if !strStartsWith absolute env.baseDir then StepRes.next st1
          else if absolute ∈ st1.visited then StepRes.next st1
          else
            let st2 := { st1 with visited := absolute :: st1.visited }
            match localPathForRef env.pkgRoot (strDropChars absolute env.baseDir.length) with
            | none => StepRes.next st2
            | some localPath =>
              let res := env.fetch absolute
              let st3 := { st2 with fetched := (absolute, depth) :: st2.fetched }
              match res.data, res.ok with
              | some bytes, true =>
                let st4 := { st3 with
                  saved := insertNew localPath st3.saved
                  writes := (absolute, localPath) :: st3.writes }
                let ctL := strLower res.ct
                let isText := strIncludes ctL "text/" || strIncludes ctL "javascript" ||
                  strIncludes ctL "json"
                if isText && decide (depth < env.maxDepth) then
                  StepRes.next { st4 with
                    queue := st4.queue ++ enqueueItems (env.refsOf bytes) (depth + 1) }
                else StepRes.next st4
              | _, _ => StepRes.next st3

/-- Phase A: iterate the loop body.  The source loop terminates because
enqueued depths strictly increase along reference chains and are capped;
the embedding makes the iteration count an explicit fuel so that every
invariant below holds for all executions regardless of length. -/
def phaseA (env : CrawlEnv) : Nat → MirrorState → MirrorState
  | 0, st => st
  | fuel + 1, st =>
    match phaseAStep env st with
    | StepRes.done s => s
    | StepRes.next s => phaseA env fuel s

/-- The initial Phase A state: empty sets, and the queue seeded from the
entry buffer's references at depth 1. -/
def initMirrorState (seedRefs : List String) : MirrorState :=
  { visited := [], saved := [], queue := enqueueItems seedRefs 1, fetched := [], writes := [] }

/-- Phase B: the `harvestPage.on('response', ...)` handler applied to the
observed responses in completion order.  `harvested` is the
`harvestedUrls` set; the result is the list of `(url, localPath)` writes
performed. -/
def harvestGo (baseDir pkgRoot : String) :
    List (String × List Nat) → List String → List (String × String)
  | [], _ => []
  | (url, _body) :: rest, harvested =>
    if !strStartsWith url baseDir then harvestGo baseDir pkgRoot rest harvested
    else if url ∈ harvested then harvestGo baseDir pkgRoot rest harvested
    else
      match localPathForRef pkgRoot (strDropChars url baseDir.length) with
      | none => harvestGo baseDir pkgRoot rest (url :: harvested)
      | some lp => (url, lp) :: harvestGo baseDir pkgRoot rest (url :: harvested)

/-- Phase B from an empty harvested set. -/
def phaseBWrites (baseDir pkgRoot : String) (responses : List (String × List Nat)) :
    List (String × String) :=
  harvestGo baseDir pkgRoot responses []

/-! ## Sample collaborators used to evaluate the theorems on concrete runs -/

/-- A probe that accepts everything with a small declared length. -/
def okProbe : String → Preflight := fun _ => { ok := true, ct := "application/zip", cl := some 5, sniff := none }

/-- A probe declaring one byte over the default cap. -/
def bigProbe : String → Preflight := fun _ => { ok := true, ct := "", cl := some (MAX_BYTES_DEFAULT + 1), sniff := none }

/-- A probe declaring one byte under the default cap. -/
def smallProbe : String → Preflight := fun _ => { ok := true, ct := "", cl := some (MAX_BYTES_DEFAULT - 1), sniff := none }

/-- An operation that fails on attempts 1 and 2 and succeeds on attempt 3. -/
def att3 : Nat → Except String Nat := fun i =>
  if i = 1 then Except.error "boom1" else if i = 2 then Except.error "boom2" else Except.ok 7

/-- An operation that fails on every attempt, with a distinct error per attempt. -/
def attFail : Nat → Except String Nat := fun i => Except.error ("x" ++ toString i)

/-- A one-asset mirror environment over the base directory `B/`. -/
def sampleEnv : CrawlEnv :=
  { resolve := fun r => some ("B/" ++ r)
    fetch := fun _ => { ok := true, ct := "text/plain", data := some [] }
    refsOf := fun _ => []
    baseDir := "B/"
    pkgRoot := "P"
    maxDepth := 8
    maxFiles := 2000 }

/-- A download whose body is a login page, not a PDF. -/
def htmlFull : Download := { ok := true, ct := "text/html", cl := "", data := [0x3c, 0x68] }

/-! ## C8: the ZIP signature test -/

/-- C8 counterexample: the three-byte buffer `0x50 0x4B 0x03` has byte 0 =
0x50, byte 1 = 0x4B and byte 2 = 0x03 — the claimed iff-condition — yet
`looksLikeZIP` returns `false`, because the source additionally requires
`buf.length >= 4`. -/
theorem claim_C8_counterexample :
    ([0x50, 0x4b, 0x03] : List Nat).getD 0 0 = 0x50 ∧
    ([0x50, 0x4b, 0x03] : List Nat).getD 1 0 = 0x4b ∧
    ([0x50, 0x4b, 0x03] : List Nat).getD 2 0 = 0x03 ∧
    looksLikeZIP (some [0x50, 0x4b, 0x03]) = false := by
  decide

/-- C8 (amended): for every buffer of length at least 4, `looksLikeZIP` is
true iff byte 0 is 0x50, byte 1 is 0x4B and byte 2 is one of 0x03, 0x05,
0x07; every buffer shorter than 4 bytes yields false. -/
theorem claim_C8 (b : List Nat) :
    (4 ≤ b.length →
      (looksLikeZIP (some b) = true ↔
        (b.getD 0 0 = 0x50 ∧ b.getD 1 0 = 0x4b ∧
          (b.getD 2 0 = 0x03 ∨ b.getD 2 0 = 0x05 ∨ b.getD 2 0 = 0x07)))) ∧
    (b.length < 4 → looksLikeZIP (some b) = false) := by
  constructor
  · intro h4
    simp only [looksLikeZIP, if_neg (Nat.not_lt.mpr h4), Bool.and_eq_true, Bool.or_eq_true,
      beq_iff_eq]
    tauto
  · intro hlt
    simp only [looksLikeZIP, if_pos hlt]

/-- C8 witness: a spanned-signature buffer of length 4 is accepted and a
wrong third byte is rejected, via the amended theorem. -/
theorem claim_C8_witness :
    looksLikeZIP (some [0x50, 0x4b, 0x07, 0x08]) = true ∧
    looksLikeZIP (some [0x50, 0x4b, 0x09, 0x08]) = false := by
  constructor
  · exact ((claim_C8 [0x50, 0x4b, 0x07, 0x08]).1 (by decide)).mpr (by decide)
  · have h := (claim_C8 [0x50, 0x4b, 0x09, 0x08]).1 (by decide)
    cases hz : looksLikeZIP (some [0x50, 0x4b, 0x09, 0x08]) with
    | false => rfl
    | true => exact absurd (h.mp hz) (by decide)

/-! ## C9: totality of the content sniffers -/

/-- C9 counterexample: `looksLikeHTML` on an absent buffer does not return
false — it dereferences the buffer and throws (modelled as `none`). -/
theorem claim_C9_counterexample :
    looksLikeHTMLq none = none ∧ looksLikeHTMLq none ≠ some false := by
  decide

/-- C9 (amended): `looksLikePDF`, `looksLikeZIP` and `extFromContentType`
return false (resp. the empty string) on absent inputs, `looksLikePDF` and
`looksLikeZIP` return false on short buffers, and `looksLikeHTML` returns
a boolean on every present buffer — but an absent buffer makes it throw a
`TypeError` instead of returning false. -/
theorem claim_C9 (b : List Nat) :
    looksLikePDF none = false ∧
    looksLikeZIP none = false ∧
    (b.length < 5 → looksLikePDF (some b) = false) ∧
    (b.length < 4 → looksLikeZIP (some b) = false) ∧
    looksLikeHTMLq (some b) = some (looksLikeHTMLBytes b) ∧
    looksLikeHTMLq none = none ∧
    extFromContentType none = "" := by
  refine ⟨rfl, rfl, ?_, ?_, rfl, rfl, by decide⟩
  · intro h5
    have hd : decide (5 ≤ b.length) = false := decide_eq_false (by omega)
    simp only [looksLikePDF, hd, Bool.false_and]
  · intro hlt
    simp only [looksLikeZIP, if_pos hlt]

/-- C9 witness: the amended theorem evaluated on the one-byte buffer. -/
theorem claim_C9_witness :
    looksLikePDF (some [0x25]) = false ∧ looksLikeZIP (some [0x25]) = false :=
  ⟨(claim_C9 [0x25]).2.2.1 (by decide), (claim_C9 [0x25]).2.2.2.1 (by decide)⟩

/-! ## C4: the retry wrapper -/

/-- One unfolding of the retry loop when attempts remain. -/
theorem retryGo_succ {ε α : Type} (attempts : Nat → Except ε α) (i k : Nat) (last : Option ε) :
    retryGo attempts i (k + 1) last =
      match attempts i with
      | Except.ok a => (Except.ok a, [])
      | Except.error e =>
        ((retryGo attempts (i + 1) k (some e)).1,
          300 * i :: (retryGo attempts (i + 1) k (some e)).2) := rfl

/-- When every attempt in the window fails, the loop surfaces the error of
the last attempt made. -/
theorem retryGo_all_fail {ε α : Type} (attempts : Nat → Except ε α) (es : Nat → ε) :
    ∀ k i last, 1 ≤ k → (∀ j, i ≤ j → j < i + k → attempts j = Except.error (es j)) →
    (retryGo attempts i k last).1 = Except.error (some (es (i + k - 1))) := by
  intro k
  induction k with
  | zero => intro i last h1 _; omega
  | succ n ih =>
    intro i last _ hfail
    have hi : attempts i = Except.error (es i) := hfail i (Nat.le_refl i) (by omega)
    have hstep : (retryGo attempts i (n + 1) last).1 =
        (retryGo attempts (i + 1) n (some (es i))).1 := by
      rw [retryGo_succ, hi]
    cases n with
    | zero =>
      rw [hstep]
      simp [retryGo]
    | succ m =>
      have hrec := ih (i + 1) (some (es i)) (by omega)
        (fun j hj hj' => hfail j (by omega) (by omega))
      have harg : i + 1 + (m + 1) - 1 = i + (m + 1 + 1) - 1 := by omega
      rw [hstep, hrec, harg]

/-- C4: an operation failing twice then succeeding, run with budget at
least 3, yields the success value after exactly the two backoff delays 300
and 600; an operation failing on all of its `N ≥ 1` attempts surfaces the
`N`-th attempt's error (and no aggregate). -/
theorem claim_C4 {ε α : Type} (attempts : Nat → Except ε α) (v : α) (e1 e2 : ε)
    (es : Nat → ε) (N : Nat) :
    (attempts 1 = Except.error e1 → attempts 2 = Except.error e2 →
      attempts 3 = Except.ok v → 3 ≤ N →
      withRetries attempts N = (Except.ok v, [300, 600])) ∧
    ((∀ i, 1 ≤ i → i ≤ N → attempts i = Except.error (es i)) → 1 ≤ N →
      (withRetries attempts N).1 = Except.error (some (es N))) := by
  constructor
  · intro h1 h2 h3 hN
    obtain ⟨k, rfl⟩ : ∃ k, N = k + 3 := ⟨N - 3, by omega⟩
    show retryGo attempts 1 (k + 2 + 1) none = _
    simp only [retryGo, h1, h2, h3]
  · intro hfail hN
    have h := retryGo_all_fail attempts es N 1 none hN
      (fun j hj hj' => hfail j hj (by omega))
    simpa using h

/-- C4 witness: `att3` with budget 3 succeeds with value 7 after the
delays 300 and 600; `attFail` with budget 3 surfaces the third error. -/
theorem claim_C4_witness :
    withRetries att3 3 = (Except.ok 7, [300, 600]) ∧
    (withRetries attFail 3).1 = Except.error (some "x3") :=
  ⟨(claim_C4 att3 7 "boom1" "boom2" (fun i => "x" ++ toString i) 3).1 rfl rfl rfl (by decide),
   (claim_C4 attFail 7 "boom1" "boom2" (fun i => "x" ++ toString i) 3).2
     (fun _ _ _ => rfl) (by decide)⟩

/-! ## C2: the Preflight-Select loop in unrestricted mode -/

/-- In `DOWNLOAD_ALL` mode the selection loop is `find?` on "probe ok and
size within cap": the ZIP-signature computation has the same value in both
of its branches. -/
theorem selectAll_eq_find (al : Bool) (probe : String → Preflight) (ranked : List Scored) :
    selectCandidate true al probe ranked =
      (ranked.find? (fun c => (probe c.href).ok && !sizeExceeds al (probe c.href).cl)).map
        Scored.href := by
  induction ranked with
  | nil => rfl
  | cons c rest ih =>
    simp only [selectCandidate, List.find?_cons]
    cases hok : (probe c.href).ok with
    | false => simpa [hok] using ih
    | true =>
      cases hsz : sizeExceeds al (probe c.href).cl with
      | true => simpa [hok, hsz] using ih
      | false => simp [hok, hsz]

/-- C2: in unrestricted mode the loop (1) chooses exactly the first
ranked candidate whose probe is ok and whose declared length does not
exceed the cap, (2) is insensitive to every probe field other than `ok`
and `cl` — in particular to ZIP-ness of content type or sniffed bytes —
and (3) once a candidate is accepted, neither the candidates after it nor
the probe's behaviour on them can change the outcome (they are never
probed). -/
theorem claim_C2 (al : Bool) (probe : String → Preflight) (ranked : List Scored) :
    (selectCandidate true al probe ranked =
      (ranked.find? (fun c => (probe c.href).ok && !sizeExceeds al (probe c.href).cl)).map
        Scored.href) ∧
    (∀ probe' : String → Preflight,
      (∀ u, (probe u).ok = (probe' u).ok ∧ (probe u).cl = (probe' u).cl) →
      selectCandidate true al probe ranked = selectCandidate true al probe' ranked) ∧
    (∀ (c : Scored) (rest rest' : List Scored) (q q' : String → Preflight),
      (q c.href).ok = true → sizeExceeds al (q c.href).cl = false → q c.href = q' c.href →
      selectCandidate true al q (c :: rest) = some c.href ∧
      selectCandidate true al q' (c :: rest') = some c.href) := by
  refine ⟨selectAll_eq_find al probe ranked, ?_, ?_⟩
  · intro probe' hagree
    rw [selectAll_eq_find, selectAll_eq_find]
    have hp : (fun (c : Scored) => (probe c.href).ok && !sizeExceeds al (probe c.href).cl) =
        (fun (c : Scored) => (probe' c.href).ok && !sizeExceeds al (probe' c.href).cl) := by
      funext c
      rw [(hagree c.href).1, (hagree c.href).2]
    rw [hp]
  · intro c rest rest' q q' hok hsz hq
    have hok' : (q' c.href).ok = true := by rw [← hq]; exact hok
    have hsz' : sizeExceeds al (q' c.href).cl = false := by rw [← hq]; exact hsz
    constructor
    · simp [selectCandidate, hok, hsz]
    · simp [selectCandidate, hok', hsz']

/-- C2 witness: with an always-ok small probe, the first candidate is
chosen whatever follows it. -/
theorem claim_C2_witness :
    selectCandidate true false okProbe [{ href := "a", score := 200 }] = some "a" ∧
    selectCandidate true false okProbe
      [{ href := "a", score := 200 }, { href := "b", score := 100 }] = some "a" :=
  (claim_C2 false okProbe []).2.2 { href := "a", score := 200 }
    [] [{ href := "b", score := 100 }] okProbe okProbe rfl rfl rfl

/-! ## C5: the size cap in Preflight-Select -/

/-- C5: the probe length one byte over the default cap is rejected, one
byte under is accepted (in unrestricted mode, where the candidate
otherwise qualifies), an absent length is never rejected for size, and
with `ALLOW_LARGE` no length is ever rejected for size. -/
theorem claim_C5 :
    (∀ al : Bool, sizeExceeds al none = false) ∧
    (∀ cl : Option Nat, sizeExceeds true cl = false) ∧
    sizeExceeds false (some (MAX_BYTES_DEFAULT + 1)) = true ∧
    sizeExceeds false (some (MAX_BYTES_DEFAULT - 1)) = false ∧
    (∀ (dl : Bool) (probe : String → Preflight) (c : Scored) (rest : List Scored),
      (probe c.href).ok = true → (probe c.href).cl = some (MAX_BYTES_DEFAULT + 1) →
      selectCandidate dl false probe (c :: rest) = selectCandidate dl false probe rest) ∧
    (∀ (probe : String → Preflight) (c : Scored) (rest : List Scored),
      (probe c.href).ok = true → (probe c.href).cl = some (MAX_BYTES_DEFAULT - 1) →
      selectCandidate true false probe (c :: rest) = some c.href) := by
  refine ⟨fun al => rfl, fun cl => ?_, by decide, by decide, ?_, ?_⟩
  · cases cl <;> simp [sizeExceeds]
  · intro dl probe c rest hok hcl
    have hsz : sizeExceeds false (probe c.href).cl = true := by
      rw [hcl]; decide
    simp [selectCandidate, hok, hsz]
  · intro probe c rest hok hcl
    have hsz : sizeExceeds false (probe c.href).cl = false := by
      rw [hcl]; decide
    simp [selectCandidate, hok, hsz]

/-- C5 witness: the over-cap probe rejects the only candidate, the
under-cap probe accepts it. -/
theorem claim_C5_witness :
    selectCandidate true false bigProbe [{ href := "a", score := 200 }] = none ∧
    selectCandidate true false smallProbe [{ href := "a", score := 200 }] = some "a" := by
  constructor
  · rw [claim_C5.2.2.2.2.1 true bigProbe { href := "a", score := 200 } [] rfl rfl]
    rfl
  · exact claim_C5.2.2.2.2.2 smallProbe { href := "a", score := 200 } [] rfl rfl

/-! ## C3: PDF-only strictness at Classify -/

/-- C3: in PDF-only mode, a successfully retrieved buffer whose declared
type does not mention PDF, or which fails the `%PDF-` magic check, ends as
`skipped` with no file or sidecar written; the skipped counter is bumped
and the failed / saved counters are untouched. -/
theorem claim_C3 (isPkgIndex : String → Bool) (rawNameOf : String → Option String)
    (uniquify : String → String) (outputDir rid chosen : String) (full : Download)
    (s : Summary)
    (hok : full.ok = true)
    (hbad : strIncludes (strLower full.ct) "pdf" = false ∨ looksLikePDF (some full.data) = false) :
    afterDownload false isPkgIndex rawNameOf uniquify outputDir rid chosen full =
      (Outcome.skipped, []) ∧
    (bumpOutcome s (afterDownload false isPkgIndex rawNameOf uniquify
      outputDir rid chosen full).1).skipped = s.skipped + 1 ∧
    (bumpOutcome s (afterDownload false isPkgIndex rawNameOf uniquify
      outputDir rid chosen full).1).failed = s.failed ∧
    (bumpOutcome s (afterDownload false isPkgIndex rawNameOf uniquify
      outputDir rid chosen full).1).savedFiles = s.savedFiles := by
  have hmain : afterDownload false isPkgIndex rawNameOf uniquify outputDir rid chosen full =
      (Outcome.skipped, []) := by
    rcases hbad with hct | hmagic
    · simp [afterDownload, hok, hct]
    · simp [afterDownload, hok, hmagic]
  refine ⟨hmain, ?_, ?_, ?_⟩ <;> rw [hmain] <;> rfl

/-- C3 witness: a successful download of an HTML login page in PDF-only
mode is skipped with nothing written. -/
theorem claim_C3_witness :
    afterDownload false (fun _ => false) (fun _ => none) id "Solomon" "42" "u" htmlFull =
      (Outcome.skipped, []) ∧
    (bumpOutcome { savedFiles := 0, savedPackages := 0, skipped := 0, failed := 0 }
      (afterDownload false (fun _ => false) (fun _ => none) id "Solomon" "42" "u"
        htmlFull).1).skipped = 1 :=
  have h := claim_C3 (fun _ => false) (fun _ => none) id "Solomon" "42" "u" htmlFull
    { savedFiles := 0, savedPackages := 0, skipped := 0, failed := 0 } rfl
    (Or.inl (by decide))
  ⟨h.1, h.2.1⟩

/-! ## C6 and C7: Phase A / Phase B crawl invariants -/

/-- The state reached by one loop iteration, whether the loop then stops
or continues. -/
def stepState : StepRes → MirrorState
  | StepRes.done s => s
  | StepRes.next s => s

/-- The inductive invariant of the Phase A loop: the visited set has no
duplicates, the saved-file set respects the cap, every fetch was made at
an in-bound depth for an in-boundary URL, and every write was of an
in-boundary URL. -/
def CrawlInv (env : CrawlEnv) (st : MirrorState) : Prop :=
  st.visited.Nodup ∧
  st.saved.length ≤ env.maxFiles ∧
  (∀ u d, (u, d) ∈ st.fetched → d ≤ env.maxDepth ∧ strStartsWith u env.baseDir = true) ∧
  (∀ u lp, (u, lp) ∈ st.writes → strStartsWith u env.baseDir = true)

/-- `insertNew` grows the set by at most one element. -/
theorem length_insertNew (x : String) (l : List String) :
    (insertNew x l).length ≤ l.length + 1 := by
  unfold insertNew
  split
  · omega
  · simp

/-- One iteration of the Phase A loop preserves the crawl invariant. -/
theorem crawlInv_step (env : CrawlEnv) (st : MirrorState) (h : CrawlInv env st) :
    CrawlInv env (stepState (phaseAStep env st)) := by
  obtain ⟨hnodup, hsaved, hfetch, hwrites⟩ := h
  unfold phaseAStep
  cases hq : st.queue with
  | nil => exact ⟨hnodup, hsaved, hfetch, hwrites⟩
  | cons item rest =>
    obtain ⟨ref, depth⟩ := item
    dsimp only
    by_cases hcap : env.maxFiles ≤ st.saved.length
    · rw [if_pos hcap]
      exact ⟨hnodup, hsaved, hfetch, hwrites⟩
    · rw [if_neg hcap]
      by_cases hdeep : env.maxDepth < depth
      · rw [if_pos hdeep]
        exact ⟨hnodup, hsaved, hfetch, hwrites⟩
      · rw [if_neg hdeep]
        cases hres : env.resolve ref with
        | none => exact ⟨hnodup, hsaved, hfetch, hwrites⟩
        | some absolute =>
          dsimp only
          by_cases hbound : strStartsWith absolute env.baseDir = true
          · rw [if_neg (by simp [hbound])]
            by_cases hvis : absolute ∈ st.visited
            · rw [if_pos hvis]
              exact ⟨hnodup, hsaved, hfetch, hwrites⟩
            · rw [if_neg hvis]
              have hnodup2 : (absolute :: st.visited).Nodup :=
                List.nodup_cons.mpr ⟨hvis, hnodup⟩
              cases hlp : localPathForRef env.pkgRoot
                  (strDropChars absolute env.baseDir.length) with
              | none => exact ⟨hnodup2, hsaved, hfetch, hwrites⟩
              | some localPath =>
                dsimp only
                have hfetch3 : ∀ u d, (u, d) ∈ (absolute, depth) :: st.fetched →
                    d ≤ env.maxDepth ∧ strStartsWith u env.baseDir = true := by
                  intro u d hm
                  rcases List.mem_cons.mp hm with heq | hm2
                  · rw [Prod.mk.injEq] at heq
                    obtain ⟨rfl, rfl⟩ := heq
                    exact ⟨by omega, hbound⟩
                  · exact hfetch u d hm2
                cases hdata : (env.fetch absolute).data with
                | none =>
                  cases hfok : (env.fetch absolute).ok <;>
                    exact ⟨hnodup2, hsaved, hfetch3, hwrites⟩
                | some bytes =>
                  cases hfok : (env.fetch absolute).ok with
                  | false => exact ⟨hnodup2, hsaved, hfetch3, hwrites⟩
                  | true =>
                    dsimp only
                    have hsaved4 : (insertNew localPath st.saved).length ≤ env.maxFiles := by
                      have := length_insertNew localPath st.saved
                      omega
                    have hwrites4 : ∀ u lp, (u, lp) ∈ (absolute, localPath) :: st.writes →
                        strStartsWith u env.baseDir = true := by
                      intro u lp hm
                      rcases List.mem_cons.mp hm with heq | hm2
                      · rw [Prod.mk.injEq] at heq
                        obtain ⟨rfl, rfl⟩ := heq
                        exact hbound
                      · exact hwrites u lp hm2
                    by_cases htext : ((strIncludes (strLower (env.fetch absolute).ct) "text/" ||
                        strIncludes (strLower (env.fetch absolute).ct) "javascript" ||
                        strIncludes (strLower (env.fetch absolute).ct) "json") &&
                        decide (depth < env.maxDepth)) = true
                    · rw [if_pos htext]
                      exact ⟨hnodup2, hsaved4, hfetch3, hwrites4⟩
                    · rw [if_neg htext]
                      exact ⟨hnodup2, hsaved4, hfetch3, hwrites4⟩
          · rw [if_pos (by simp [Bool.not_eq_true] at hbound; simp [hbound])]
            exact ⟨hnodup, hsaved, hfetch, hwrites⟩

/-- Any number of Phase A iterations preserves the crawl invariant. -/
theorem crawlInv_phaseA (env : CrawlEnv) :
    ∀ (fuel : Nat) (st : MirrorState), CrawlInv env st → CrawlInv env (phaseA env fuel st) := by
  intro fuel
  induction fuel with
  | zero => intro st h; exact h
  | succ n ih =>
    intro st h
    have hstep := crawlInv_step env st h
    show CrawlInv env (match phaseAStep env st with
      | StepRes.done s => s
      | StepRes.next s => phaseA env n s)
    cases hres : phaseAStep env st with
    | done s => rw [hres] at hstep; exact hstep
    | next s =>
      rw [hres] at hstep
      exact ih s hstep

/-- The initial crawl state satisfies the invariant. -/
theorem crawlInv_init (env : CrawlEnv) (seedRefs : List String) :
    CrawlInv env (initMirrorState seedRefs) := by
  refine ⟨List.nodup_nil, by simp [initMirrorState], ?_, ?_⟩
  · intro u d hm
    simp [initMirrorState] at hm
  · intro u lp hm
    simp [initMirrorState] at hm

/-- Every write performed by the Phase B harvest handler is of a URL
inside the base-directory boundary (the handler returns before writing
otherwise). -/
theorem harvestGo_bound (baseDir pkgRoot : String) :
    ∀ (responses : List (String × List Nat)) (harvested : List String) (u lp : String),
    (u, lp) ∈ harvestGo baseDir pkgRoot responses harvested →
    strStartsWith u baseDir = true := by
  intro responses
  induction responses with
  | nil => intro harvested u lp hm; simp [harvestGo] at hm
  | cons r rest ih =>
    intro harvested u lp hm
    obtain ⟨url, body⟩ := r
    unfold harvestGo at hm
    by_cases hb : strStartsWith url baseDir = true
    · rw [if_neg (by simp [hb])] at hm
      by_cases hh : url ∈ harvested
      · rw [if_pos hh] at hm
        exact ih harvested u lp hm
      · rw [if_neg hh] at hm
        cases hlp : localPathForRef pkgRoot (strDropChars url baseDir.length) with
        | none =>
          rw [hlp] at hm
          exact ih (url :: harvested) u lp hm
        | some lp2 =>
          rw [hlp] at hm
          rcases List.mem_cons.mp hm with heq | hm2
          · rw [Prod.mk.injEq] at heq
            obtain ⟨rfl, rfl⟩ := heq
            exact hb
          · exact ih (url :: harvested) u lp hm2
    · rw [if_pos (by simp [Bool.not_eq_true] at hb; simp [hb])] at hm
      exact ih harvested u lp hm

/-- C6: in every Phase A execution — any environment, any fuel, any seed
references — the visited set never holds a URL twice, the saved-file set
never exceeds `MIRROR_MAX_FILES`, and no item is fetched at a depth above
`MIRROR_MAX_DEPTH`. -/
theorem claim_C6 (env : CrawlEnv) (fuel : Nat) (seedRefs : List String) :
    (phaseA env fuel (initMirrorState seedRefs)).visited.Nodup ∧
    (phaseA env fuel (initMirrorState seedRefs)).saved.length ≤ env.maxFiles ∧
    (∀ u d, (u, d) ∈ (phaseA env fuel (initMirrorState seedRefs)).fetched →
      d ≤ env.maxDepth) := by
  have h := crawlInv_phaseA env fuel (initMirrorState seedRefs) (crawlInv_init env seedRefs)
  exact ⟨h.1, h.2.1, fun u d hm => (h.2.2.1 u d hm).1⟩

/-- C6 witness: the one-asset sample crawl fetches `B/x` at depth 1 and
satisfies every bound. -/
theorem claim_C6_witness :
    (phaseA sampleEnv 3 (initMirrorState ["x"])).visited.Nodup ∧
    (phaseA sampleEnv 3 (initMirrorState ["x"])).saved.length ≤ sampleEnv.maxFiles ∧
    (1 : Nat) ≤ sampleEnv.maxDepth :=
  have h := claim_C6 sampleEnv 3 ["x"]
  ⟨h.1, h.2.1, h.2.2 "B/x" 1 (by decide)⟩

/-- C7: every asset fetched or written by the Phase A crawl, and every
response persisted by the Phase B harvest, has a URL beginning with the
package's base-directory boundary. -/
theorem claim_C7 (env : CrawlEnv) (fuel : Nat) (seedRefs : List String)
    (baseDir pkgRoot : String) (responses : List (String × List Nat)) :
    (∀ u d, (u, d) ∈ (phaseA env fuel (initMirrorState seedRefs)).fetched →
      strStartsWith u env.baseDir = true) ∧
    (∀ u lp, (u, lp) ∈ (phaseA env fuel (initMirrorState seedRefs)).writes →
      strStartsWith u env.baseDir = true) ∧
    (∀ u lp, (u, lp) ∈ phaseBWrites baseDir pkgRoot responses →
      strStartsWith u baseDir = true) := by
  have h := crawlInv_phaseA env fuel (initMirrorState seedRefs) (crawlInv_init env seedRefs)
  exact ⟨fun u d hm => (h.2.2.1 u d hm).2, fun u lp hm => h.2.2.2 u lp hm,
    fun u lp hm => harvestGo_bound baseDir pkgRoot responses [] u lp hm⟩

/-- C7 witness: in the sample crawl the fetched and written URL `B/x` and
the harvested response URL `B/y` all start with the boundary `B/`. -/
theorem claim_C7_witness :
    strStartsWith "B/x" sampleEnv.baseDir = true ∧
    strStartsWith "B/y" "B/" = true :=
  have h := claim_C7 sampleEnv 3 ["x"] "B/" "P" [("B/y", [])]
  ⟨h.1 "B/x" 1 (by decide), h.2.2 "B/y" "P/y" (by decide)⟩

/-! ## C10: filename hygiene invariants -/

/-- Every character of a collapsed list is the replacement or came from
the input. -/
theorem mem_collapseAux {p : Char → Bool} {rep : Char} :
    ∀ {l : List Char} {b : Bool} {c : Char}, c ∈ collapseAux p rep b l → c = rep ∨ c ∈ l := by
  intro l
  induction l with
  | nil => intro b c h; simp [collapseAux] at h
  | cons x xs ih =>
    intro b c h
    unfold collapseAux at h
    by_cases hp : p x = true
    · rw [if_pos hp] at h
      cases b with
      | true =>
        rcases ih h with h2 | h2
        · exact Or.inl h2
        · exact Or.inr (List.mem_cons_of_mem x h2)
      | false =>
        rcases List.mem_cons.mp h with rfl | h2
        · exact Or.inl rfl
        · rcases ih h2 with h3 | h3
          · exact Or.inl h3
          · exact Or.inr (List.mem_cons_of_mem x h3)
    · rw [if_neg hp] at h
      rcases List.mem_cons.mp h with rfl | h2
      · exact Or.inr (List.mem_cons_self c xs)
      · rcases ih h2 with h3 | h3
        · exact Or.inl h3
        · exact Or.inr (List.mem_cons_of_mem x h3)

/-- Membership version for `collapseRuns`. -/
theorem mem_collapseRuns {p : Char → Bool} {rep : Char} {l : List Char} {c : Char}
    (h : c ∈ collapseRuns p rep l) : c = rep ∨ c ∈ l :=
  mem_collapseAux h

/-- Trimming only removes characters. -/
theorem mem_trimChars {l : List Char} {c : Char} (h : c ∈ trimChars l) : c ∈ l := by
  unfold trimChars at h
  rw [List.mem_reverse] at h
  have h2 := (List.dropWhile_suffix isJsWhitespace).subset h
  rw [List.mem_reverse] at h2
  exact (List.dropWhile_suffix isJsWhitespace).subset h2

/-- The head surviving `dropWhile p` does not satisfy `p`. -/
theorem head_dropWhile_not {p : Char → Bool} :
    ∀ {l : List Char} {c : Char}, (l.dropWhile p).head? = some c → p c = false := by
  intro l
  induction l with
  | nil => intro c h; simp at h
  | cons x xs ih =>
    intro c h
    rw [List.dropWhile_cons] at h
    by_cases hp : p x = true
    · rw [if_pos hp] at h
      exact ih h
    · rw [if_neg hp] at h
      simp only [List.head?_cons, Option.some.injEq] at h
      subst h
      exact Bool.not_eq_true _ ▸ eq_false_of_ne_true hp

/-- A nonempty `dropWhile` keeps the last element. -/
theorem getLast_dropWhile_of_ne {p : Char → Bool} :
    ∀ {l : List Char}, l.dropWhile p ≠ [] → (l.dropWhile p).getLast? = l.getLast? := by
  intro l
  induction l with
  | nil => intro h; simp at h
  | cons x xs ih =>
    intro h
    rw [List.dropWhile_cons] at h ⊢
    by_cases hp : p x = true
    · rw [if_pos hp] at h ⊢
      rw [ih h]
      have hxs : xs ≠ [] := by
        intro he
        rw [he] at h
        simp at h
      cases xs with
      | nil => exact absurd rfl hxs
      | cons y ys => rw [List.getLast?_cons_cons]
    · rw [if_neg hp] at h ⊢

/-- The head of a trimmed list is not whitespace. -/
theorem head_trimChars_not {l : List Char} {c : Char} (h : (trimChars l).head? = some c) :
    isJsWhitespace c = false := by
  unfold trimChars at h
  rw [List.head?_reverse] at h
  have hne : ((l.dropWhile isJsWhitespace).reverse.dropWhile isJsWhitespace) ≠ [] := by
    intro he
    rw [he] at h
    simp at h
  rw [getLast_dropWhile_of_ne hne, List.getLast?_reverse] at h
  exact head_dropWhile_not h

/-- The last element of a trimmed list is not whitespace. -/
theorem getLast_trimChars_not {l : List Char} {c : Char} (h : (trimChars l).getLast? = some c) :
    isJsWhitespace c = false := by
  unfold trimChars at h
  rw [List.getLast?_reverse] at h
  exact head_dropWhile_not h

/-- The head of a truncation is the head of the whole list. -/
theorem head_take_eq {l : List Char} {n : Nat} {c : Char} (h : (l.take n).head? = some c) :
    l.head? = some c := by
  cases n with
  | zero => simp at h
  | succ m =>
    cases l with
    | nil => simp at h
    | cons x xs => simpa using h

/-- A collapsed list never has two adjacent characters of the collapsed
class, and, when the collapse starts inside a run, its head is outside the
class. -/
theorem collapseAux_no_two (p : Char → Bool) (rep : Char) :
    ∀ (l : List Char),
      (∀ b, List.Chain' (fun a c => ¬(p a = true ∧ p c = true)) (collapseAux p rep b l)) ∧
      (∀ c, (collapseAux p rep true l).head? = some c → p c = false) := by
  intro l
  induction l with
  | nil =>
    constructor
    · intro b; simp [collapseAux]
    · intro c h; simp [collapseAux] at h
  | cons x xs ih =>
    constructor
    · intro b
      unfold collapseAux
      by_cases hp : p x = true
      · rw [if_pos hp]
        cases b with
        | true => exact ih.1 true
        | false =>
          refine List.chain'_cons'.mpr ⟨?_, ih.1 true⟩
          intro y hy
          intro hcon
          rw [ih.2 y hy] at hcon
          exact Bool.false_ne_true hcon.2
      · rw [if_neg hp]
        refine List.chain'_cons'.mpr ⟨?_, ih.1 false⟩
        intro y _
        intro hcon
        exact hp hcon.1
    · intro c h
      unfold collapseAux at h
      by_cases hp : p x = true
      · rw [if_pos hp] at h
        exact ih.2 c h
      · rw [if_neg hp] at h
        simp only [List.head?_cons, Option.some.injEq] at h
        subst h
        exact eq_false_of_ne_true hp

/-- Collapsing a class whose replacement is unrelated to `S` (on both
sides) preserves a `Chain' S` invariant. -/
theorem collapseAux_chain_preserve {S : Char → Char → Prop} {p : Char → Bool} {rep : Char}
    (hrep1 : ∀ x, S x rep) (hrep2 : ∀ y, S rep y) :
    ∀ (l : List Char) (b : Bool), List.Chain' S l → List.Chain' S (collapseAux p rep b l) := by
  intro l
  induction l with
  | nil => intro b _; simp [collapseAux]
  | cons x xs ih =>
    intro b h
    have htail : List.Chain' S xs := (List.chain'_cons'.mp h).2
    unfold collapseAux
    by_cases hp : p x = true
    · rw [if_pos hp]
      cases b with
      | true => exact ih true htail
      | false => exact List.chain'_cons'.mpr ⟨fun y _ => hrep2 y, ih true htail⟩
    · rw [if_neg hp]
      refine List.chain'_cons'.mpr ⟨?_, ih false htail⟩
      intro y hy
      cases xs with
      | nil =>
        have hnone : (none : Option Char) = some y := hy
        exact absurd hnone (by simp)
      | cons z zs =>
        unfold collapseAux at hy
        by_cases hz : p z = true
        · rw [if_pos hz] at hy
          have hz2 : (some rep : Option Char) = some y := hy
          rw [← Option.some.inj hz2]
          exact hrep1 x
        · rw [if_neg hz] at hy
          have hz2 : (some z : Option Char) = some y := hy
          rw [← Option.some.inj hz2]
          exact (List.chain'_cons'.mp h).1 z rfl

/-- Truncation preserves a `Chain'` invariant. -/
theorem chain'_take {S : Char → Char → Prop} :
    ∀ (l : List Char) (n : Nat), List.Chain' S l → List.Chain' S (l.take n) := by
  intro l
  induction l with
  | nil => intro n _; simp
  | cons x xs ih =>
    intro n h
    cases n with
    | zero => simp
    | succ m =>
      rw [List.take_succ_cons]
      refine List.chain'_cons'.mpr ⟨?_, ih m (List.chain'_cons'.mp h).2⟩
      intro y hy
      exact (List.chain'_cons'.mp h).1 y (head_take_eq hy)

/-- Trimming preserves a symmetric `Chain'` invariant. -/
theorem chain'_trimChars {S : Char → Char → Prop} (hsymm : ∀ a b, S a b → S b a)
    {l : List Char} (h : List.Chain' S l) : List.Chain' S (trimChars l) := by
  unfold trimChars
  have h1 : List.Chain' S (l.dropWhile isJsWhitespace) :=
    h.suffix (List.dropWhile_suffix _)
  have h2 : List.Chain' S (l.dropWhile isJsWhitespace).reverse := by
    rw [List.chain'_reverse]
    exact h1.imp fun a b hab => hsymm a b hab
  have h3 := h2.suffix (List.dropWhile_suffix isJsWhitespace)
  rw [List.chain'_reverse]
  exact h3.imp fun a b hab => hsymm a b hab

set_option maxRecDepth 4000 in
/-- C10 counterexample: on the 241-character input `"a a ... a x"`
(120 repetitions of `"a "` then `"x"`), the 240-character truncation cuts
after an interior space, so the sanitized name ends in a trailing space —
the claimed "no trailing whitespace" fails. -/
theorem claim_C10_counterexample :
    (sanitizeFilename (String.join (List.replicate 120 "a ") ++ "x")).toList.getLast? =
      some ' ' := by
  decide

/-- C10 (amended): `sanitizeFilename` always returns at most 240
characters drawn from letters, digits, dot, hyphen, underscore and
spaces, never two spaces in a row, never a percent sign, and never a
leading space; the result also never ends in a space except when the
240-character truncation cut the trimmed name short, in which case a
single trailing space may remain. -/
theorem claim_C10 (name : String) :
    (sanitizeFilename name).toList.length ≤ 240 ∧
    (∀ c ∈ (sanitizeFilename name).toList, isAllowedChar c = true) ∧
    '%' ∉ (sanitizeFilename name).toList ∧
    (∀ c, (sanitizeFilename name).toList.head? = some c → c ≠ ' ') ∧
    List.Chain' (fun a b => ¬(a = ' ' ∧ b = ' ')) (sanitizeFilename name).toList ∧
    ((sanitizeFilename name).toList.length < 240 →
      ∀ c, (sanitizeFilename name).toList.getLast? = some c → c ≠ ' ') := by
  have hall2 : ∀ c ∈ ((name.toList.map (fun c => if c = '%' then '_' else c)).map
      (fun c => if isAllowedChar c then c else '_')), isAllowedChar c = true := by
    intro c hc
    rcases List.mem_map.mp hc with ⟨a, _, rfl⟩
    by_cases h : isAllowedChar a = true
    · rw [if_pos h]
      exact h
    · rw [if_neg h]
      decide
  set l2 := (name.toList.map (fun c => if c = '%' then '_' else c)).map
      (fun c => if isAllowedChar c then c else '_') with hl2
  set s3 := collapseRuns isJsWhitespace ' ' l2 with hs3
  set s4 := collapseRuns (fun c => c = '_') '_' s3 with hs4
  set s5 := trimChars s4 with hs5
  have hrep : (sanitizeFilename name).toList = s5.take 240 := rfl
  rw [hrep]
  have hmem : ∀ c ∈ s5.take 240, isAllowedChar c = true := by
    intro c hc
    have h5 : c ∈ s5 := List.mem_of_mem_take hc
    have h4 : c ∈ s4 := mem_trimChars (hs5 ▸ h5)
    rcases mem_collapseRuns (hs4 ▸ h4) with rfl | h3
    · decide
    · rcases mem_collapseRuns (hs3 ▸ h3) with rfl | h2
      · decide
      · exact hall2 c h2
  refine ⟨?_, hmem, ?_, ?_, ?_, ?_⟩
  · rw [List.length_take]
    omega
  · intro hpc
    have := hmem '%' hpc
    simp [isAllowedChar] at this
  · intro c hc hsp
    have h5 : s5.head? = some c := head_take_eq hc
    have hws := head_trimChars_not (hs5 ▸ h5)
    rw [hsp] at hws
    simp [isJsWhitespace] at hws
  · have hchain3 : List.Chain' (fun a b => ¬(a = ' ' ∧ b = ' ')) s3 := by
      rw [hs3]
      refine ((collapseAux_no_two isJsWhitespace ' ' l2).1 false).imp ?_
      intro a b hab hcon
      exact hab ⟨by rw [hcon.1]; decide, by rw [hcon.2]; decide⟩
    have hchain4 : List.Chain' (fun a b => ¬(a = ' ' ∧ b = ' ')) s4 := by
      rw [hs4]
      exact collapseAux_chain_preserve
        (fun x hcon => by exact absurd hcon.2 (by decide))
        (fun y hcon => by exact absurd hcon.1 (by decide)) s3 false hchain3
    have hchain5 : List.Chain' (fun a b => ¬(a = ' ' ∧ b = ' ')) s5 := by
      rw [hs5]
      exact chain'_trimChars (fun a b hab hcon => hab ⟨hcon.2, hcon.1⟩) hchain4
    exact chain'_take s5 240 hchain5
  · intro hlen c hlast hsp
    rw [List.length_take] at hlen
    have h54 : s5.length < 240 := by omega
    rw [List.take_of_length_le (Nat.le_of_lt h54)] at hlast
    have hws := getLast_trimChars_not (hs5 ▸ hlast)
    rw [hsp] at hws
    simp [isJsWhitespace] at hws

/-- C10 witness: the amended theorem evaluated on `"a%b  c!.pdf"`, whose
sanitized form is `"a_b c_.pdf"`. -/
theorem claim_C10_witness :
    (sanitizeFilename "a%b  c!.pdf").toList.length ≤ 240 ∧
    isAllowedChar 'a' = true ∧
    ('a' : Char) ≠ ' ' ∧
    ('f' : Char) ≠ ' ' :=
  have h := claim_C10 "a%b  c!.pdf"
  ⟨h.1, h.2.1 'a' (by decide), h.2.2.2.1 'a' (by decide),
   h.2.2.2.2.2 (by decide) 'f' (by decide)⟩

/-! ## C1: candidate ranking order and stability -/

/-- Score band of a URL containing `.zip`. -/
theorem scoreCandidate_zip {u : String} (h : strIncludes (strLower u) ".zip" = true) :
    1000 ≤ scoreCandidate u ∧ scoreCandidate u ≤ 1010 := by
  simp only [scoreCandidate, h, if_true]
  split <;> omega

/-- Score band of a `.pdf` URL that is not a `.zip` URL. -/
theorem scoreCandidate_pdf {u : String} (hz : strIncludes (strLower u) ".zip" = false)
    (hp : strIncludes (strLower u) ".pdf" = true) :
    900 ≤ scoreCandidate u ∧ scoreCandidate u ≤ 915 := by
  simp only [scoreCandidate, hz, hp, if_true, Bool.false_eq_true, if_false]
  split <;> split <;> omega

/-- Score band of an `index.html` URL that is neither `.zip` nor `.pdf`. -/
theorem scoreCandidate_indexHtml {u : String} (hz : strIncludes (strLower u) ".zip" = false)
    (hp : strIncludes (strLower u) ".pdf" = false)
    (hi : (strEndsWith (strLower u) "/index.html" ||
      strIncludes (strLower u) "/index.html?") = true) :
    850 ≤ scoreCandidate u ∧ scoreCandidate u ≤ 860 := by
  simp only [scoreCandidate, hz, hp, hi, if_true, Bool.false_eq_true, if_false]
  split <;> omega

/-- Score band of a plain plugin-file URL (no zip/pdf/index marker). -/
theorem scoreCandidate_pluginfile {u : String} (hz : strIncludes (strLower u) ".zip" = false)
    (hp : strIncludes (strLower u) ".pdf" = false)
    (hi : (strEndsWith (strLower u) "/index.html" ||
      strIncludes (strLower u) "/index.html?") = false)
    (hf : strIncludes (strLower u) "/pluginfile.php/" = true) :
    700 ≤ scoreCandidate u ∧ scoreCandidate u ≤ 710 := by
  simp only [scoreCandidate, hz, hp, hi, hf, if_true, Bool.false_eq_true, if_false]
  split <;> omega

/-- A URL with none of the four markers scores exactly 200. -/
theorem scoreCandidate_other {u : String} (hz : strIncludes (strLower u) ".zip" = false)
    (hp : strIncludes (strLower u) ".pdf" = false)
    (hi : (strEndsWith (strLower u) "/index.html" ||
      strIncludes (strLower u) "/index.html?") = false)
    (hf : strIncludes (strLower u) "/pluginfile.php/" = false) :
    scoreCandidate u = 200 := by
  simp only [scoreCandidate, hz, hp, hi, hf, Bool.false_eq_true, if_false]

/-- Deduplication is the identity on a duplicate-free list disjoint from
the seen set. -/
theorem dedupKeepFirst_eq_self :
    ∀ {l seen : List String}, l.Nodup → (∀ x ∈ l, x ∉ seen) → dedupKeepFirst l seen = l := by
  intro l
  induction l with
  | nil => intro seen _ _; rfl
  | cons x xs ih =>
    intro seen hnd hdisj
    unfold dedupKeepFirst
    rw [if_neg (hdisj x (List.mem_cons_self x xs))]
    congr 1
    refine ih (List.nodup_cons.mp hnd).2 ?_
    intro y hy hmem
    rcases List.mem_cons.mp hmem with rfl | hmem2
    · exact (List.nodup_cons.mp hnd).1 hy
    · exact hdisj y (List.mem_cons_of_mem x hy) hmem2

/-- A nonempty string passes the falsy filter. -/
theorem bne_empty_of_ne {s : String} (h : s ≠ "") : (!(s == "")) = true := by
  simp [h]

/-- Five strictly descending scored candidates are pairwise descending. -/
theorem pairwise_scoreGT_five (a b c d e : Scored)
    (h1 : scoreGT a b) (h2 : scoreGT b c) (h3 : scoreGT c d) (h4 : scoreGT d e) :
    List.Pairwise scoreGT [a, b, c, d, e] := by
  rw [← List.chain'_iff_pairwise]
  simp only [List.chain'_cons, List.chain'_singleton, and_true]
  exact ⟨h1, h2, h3, h4⟩

/-- C1: for one URL of each form — zip, pdf, index.html, plain
plugin-file, other — presented in any input order, unrestricted
`rankCandidates` returns exactly the order zip, pdf, index.html,
plugin-file, other; and in either mode any two equal-scored candidates
keep, in the output, the relative order they had in the scored input. -/
theorem claim_C1 (z pdfu idxu plfu othu : String)
    (hz : strIncludes (strLower z) ".zip" = true)
    (hpz : strIncludes (strLower pdfu) ".zip" = false)
    (hpp : strIncludes (strLower pdfu) ".pdf" = true)
    (hiz : strIncludes (strLower idxu) ".zip" = false)
    (hip : strIncludes (strLower idxu) ".pdf" = false)
    (hii : (strEndsWith (strLower idxu) "/index.html" ||
      strIncludes (strLower idxu) "/index.html?") = true)
    (hfz : strIncludes (strLower plfu) ".zip" = false)
    (hfp : strIncludes (strLower plfu) ".pdf" = false)
    (hfi : (strEndsWith (strLower plfu) "/index.html" ||
      strIncludes (strLower plfu) "/index.html?") = false)
    (hff : strIncludes (strLower plfu) "/pluginfile.php/" = true)
    (hoz : strIncludes (strLower othu) ".zip" = false)
    (hop : strIncludes (strLower othu) ".pdf" = false)
    (hoi : (strEndsWith (strLower othu) "/index.html" ||
      strIncludes (strLower othu) "/index.html?") = false)
    (hof : strIncludes (strLower othu) "/pluginfile.php/" = false)
    (hone : othu ≠ "")
    (input : List String) (hperm : input.Perm [z, pdfu, idxu, plfu, othu]) :
    rankCandidates true input =
      ([z, pdfu, idxu, plfu, othu].map
        (fun h => { href := h, score := scoreCandidate h })) ∧
    (∀ (dl : Bool) (cs : List String) (a b : Scored), a.score = b.score →
      List.Sublist [a, b] (scoredOf dl cs) →
      List.Sublist [a, b] (rankCandidates dl cs)) := by
  have hsz := scoreCandidate_zip hz
  have hsp := scoreCandidate_pdf hpz hpp
  have hsi := scoreCandidate_indexHtml hiz hip hii
  have hsf := scoreCandidate_pluginfile hfz hfp hfi hff
  have hso := scoreCandidate_other hoz hop hoi hof
  constructor
  · -- nonemptiness of each candidate
    have hzne : z ≠ "" := fun e => by rw [e] at hz; exact absurd hz (by decide)
    have hpne : pdfu ≠ "" := fun e => by rw [e] at hpp; exact absurd hpp (by decide)
    have hine : idxu ≠ "" := fun e => by rw [e] at hii; exact absurd hii (by decide)
    have hfne : plfu ≠ "" := fun e => by rw [e] at hff; exact absurd hff (by decide)
    -- the five strings are pairwise distinct, since their scores differ
    have hne_zp : z ≠ pdfu := fun e => by rw [e] at hsz; omega
    have hne_zi : z ≠ idxu := fun e => by rw [e] at hsz; omega
    have hne_zf : z ≠ plfu := fun e => by rw [e] at hsz; omega
    have hne_zo : z ≠ othu := fun e => by rw [e] at hsz; omega
    have hne_pi : pdfu ≠ idxu := fun e => by rw [e] at hsp; omega
    have hne_pf : pdfu ≠ plfu := fun e => by rw [e] at hsp; omega
    have hne_po : pdfu ≠ othu := fun e => by rw [e] at hsp; omega
    have hne_if : idxu ≠ plfu := fun e => by rw [e] at hsi; omega
    have hne_io : idxu ≠ othu := fun e => by rw [e] at hsi; omega
    have hne_fo : plfu ≠ othu := fun e => by rw [e] at hsf; omega
    have hnd : ([z, pdfu, idxu, plfu, othu] : List String).Nodup := by
      refine List.nodup_cons.mpr ⟨?_, List.nodup_cons.mpr ⟨?_,
        List.nodup_cons.mpr ⟨?_, List.nodup_cons.mpr ⟨?_, List.nodup_singleton _⟩⟩⟩⟩
      · simp only [List.mem_cons, not_or]
        exact ⟨hne_zp, hne_zi, hne_zf, hne_zo, List.not_mem_nil z⟩
      · simp only [List.mem_cons, not_or]
        exact ⟨hne_pi, hne_pf, hne_po, List.not_mem_nil pdfu⟩
      · simp only [List.mem_cons, not_or]
        exact ⟨hne_if, hne_io, List.not_mem_nil idxu⟩
      · simp only [List.mem_cons, not_or]
        exact ⟨hne_fo, List.not_mem_nil plfu⟩
    have hfilt_t : ([z, pdfu, idxu, plfu, othu] : List String).filter
        (fun c => !(c == "")) = [z, pdfu, idxu, plfu, othu] := by
      refine List.filter_eq_self.mpr ?_
      intro a ha
      rcases List.mem_cons.mp ha with rfl | ha2
      · exact bne_empty_of_ne hzne
      rcases List.mem_cons.mp ha2 with rfl | ha3
      · exact bne_empty_of_ne hpne
      rcases List.mem_cons.mp ha3 with rfl | ha4
      · exact bne_empty_of_ne hine
      rcases List.mem_cons.mp ha4 with rfl | ha5
      · exact bne_empty_of_ne hfne
      rw [List.mem_singleton.mp ha5]
      exact bne_empty_of_ne hone
    have hfp2 : List.Perm (input.filter (fun c => !(c == "")))
        ([z, pdfu, idxu, plfu, othu] : List String) :=
      (hperm.filter _).trans (by rw [hfilt_t])
    have hded : dedupKeepFirst (input.filter (fun c => !(c == ""))) [] =
        input.filter (fun c => !(c == "")) :=
      dedupKeepFirst_eq_self (hfp2.nodup_iff.mpr hnd) (fun x _ => List.not_mem_nil x)
    have hsc : scoredOf true input = (input.filter (fun c => !(c == ""))).map
        (fun h => { href := h, score := scoreCandidate h }) := by
      show (dedupKeepFirst (input.filter fun c => !(c == "")) []).map
          (fun h => ({ href := h, score := scoreCandidate h } : Scored)) =
        (input.filter fun c => !(c == "")).map
          (fun h => ({ href := h, score := scoreCandidate h } : Scored))
      rw [hded]
    have hrperm : List.Perm (rankCandidates true input)
        ([z, pdfu, idxu, plfu, othu].map
          (fun h => { href := h, score := scoreCandidate h })) := by
      have h1 : List.Perm (rankCandidates true input) (scoredOf true input) :=
        List.perm_insertionSort scoreGE _
      rw [hsc] at h1
      exact h1.trans (hfp2.map _)
    have htgt : List.Pairwise scoreGT ([z, pdfu, idxu, plfu, othu].map
        (fun h => { href := h, score := scoreCandidate h })) := by
      refine pairwise_scoreGT_five _ _ _ _ _ ?_ ?_ ?_ ?_ <;> simp only [scoreGT] <;> omega
    have htne : List.Pairwise (fun a b : Scored => a.score ≠ b.score)
        ([z, pdfu, idxu, plfu, othu].map
          (fun h => { href := h, score := scoreCandidate h })) :=
      htgt.imp (fun hab => Nat.ne_of_gt hab)
    have hrne : List.Pairwise (fun a b : Scored => a.score ≠ b.score)
        (rankCandidates true input) :=
      (hrperm.pairwise_iff (fun h => h.symm)).mpr htne
    have hge : List.Pairwise scoreGE (rankCandidates true input) :=
      List.sorted_insertionSort scoreGE _
    have hrgt : List.Pairwise scoreGT (rankCandidates true input) :=
      (hge.and hrne).imp (fun hab => Nat.lt_of_le_of_ne hab.1 (Ne.symm hab.2))
    exact List.eq_of_perm_of_sorted hrperm hrgt htgt
  · intro dl cs a b heq hsub
    exact List.pair_sublist_insertionSort (Nat.le_of_eq heq.symm) hsub

/-- C1 witness: the five sample URLs, fed in reverse order, come out
ranked zip, pdf, index, plugin-file, other; two equal-scored PDF URLs
keep their input order. -/
theorem claim_C1_witness :
    rankCandidates true
        ["plain", "https://h/pluginfile.php/1/a", "a/index.html", "x.pdf", "x.zip"] =
      (["x.zip", "x.pdf", "a/index.html", "https://h/pluginfile.php/1/a", "plain"].map
        (fun h => { href := h, score := scoreCandidate h })) ∧
    List.Sublist
      [{ href := "u1.pdf", score := scoreCandidate "u1.pdf" },
       { href := "u2.pdf", score := scoreCandidate "u2.pdf" }]
      (rankCandidates true ["u1.pdf", "u2.pdf"]) :=
  have h := claim_C1 "x.zip" "x.pdf" "a/index.html" "https://h/pluginfile.php/1/a" "plain"
    (by decide) (by decide) (by decide) (by decide) (by decide) (by decide) (by decide)
    (by decide) (by decide) (by decide) (by decide) (by decide) (by decide) (by decide)
    (by decide)
    ["plain", "https://h/pluginfile.php/1/a", "a/index.html", "x.pdf", "x.zip"]
    (by decide)
  ⟨h.1, h.2 true ["u1.pdf", "u2.pdf"]
    { href := "u1.pdf", score := scoreCandidate "u1.pdf" }
    { href := "u2.pdf", score := scoreCandidate "u2.pdf" }
    (by decide) (by decide)⟩

end Solomon
